import Mathlib

/-! # Verification of process_cursor_links.py

Shallow embedding of the `go-cursor-help` link-processing script
(`src/process_cursor_links.py`) and proofs of its specified properties.

Python strings are modelled as lists of characters (`PyStr`).  The string
operations the script uses — `str.strip`, `str.split` on a one-character
separator — are embedded below with Python's semantics (strip removes
whitespace from both ends; split on a separator keeps empty parts and
returns one part even for the empty string).  The script's inputs are
ASCII, so `strip`'s whitespace set is modelled by the six ASCII whitespace
characters Python recognises.

Python dicts preserve insertion order, so the nested download-links dict
is modelled as a nested association list in the source's insertion order;
`dict.items()` iteration reads that list left to right.  File writing is
abstracted away: each renderer is modelled as the pure function producing
the written content (markdown text, JSON structure, CSV rows).
-/

namespace CursorLinks

/-- Python strings, modelled as lists of characters. -/
abbrev PyStr := List Char

/-- Whitespace stripped by Python's `str.strip()` (ASCII range). -/
def isPySpace (c : Char) : Bool :=
  c == ' ' || c == '\t' || c == '\n' || c == '\r' || c == '\x0b' || c == '\x0c'

/-- Python `str.lstrip()`: drop leading whitespace. -/
def lstrip (s : PyStr) : PyStr := s.dropWhile isPySpace

/-- Python `str.rstrip()`: drop trailing whitespace. -/
def rstrip (s : PyStr) : PyStr := (lstrip s.reverse).reverse

/-- Python `str.strip()`: drop whitespace from both ends. -/
def pyStrip (s : PyStr) : PyStr := rstrip (lstrip s)

/-- Helper for `pySplit`: first part and remaining parts of the split. -/
def pySplitF (sep : Char) : PyStr → PyStr × List PyStr
  | [] => ([], [])
  | c :: rest =>
    let r := pySplitF sep rest
    if c = sep then ([], r.1 :: r.2) else (c :: r.1, r.2)

/-- Python `str.split(sep)` for a one-character separator: splits at every
occurrence of `sep`, keeping empty parts; the empty string yields one
empty part, as in Python. -/
def pySplit (sep : Char) (s : PyStr) : List PyStr :=
  (pySplitF sep s).1 :: (pySplitF sep s).2

/-- Join lines with a newline between consecutive lines (used to state the
round-trip property: serializing records one per line). -/
def joinLines : List PyStr → PyStr
  | [] => []
  | [l] => l
  | l :: rest => l ++ '\n' :: joinLines rest

/-- The `CursorVersion` dataclass: a version string and a build id. -/
structure CursorVersion where
  version : PyStr
  build_id : PyStr
deriving DecidableEq, Repr

/-- Base of every download URL, `https://downloader.cursor.sh/builds/`,
as interpolated in `get_download_links`. -/
def dlBase : PyStr := "https://downloader.cursor.sh/builds/".toList

/-- Embedding of `CursorVersion.get_download_links`: the nested dict
`platform -> architecture -> URL`, as a nested association list in the
source's insertion order. -/
def get_download_links (v : CursorVersion) : List (PyStr × List (PyStr × PyStr)) :=
  let base_url := dlBase ++ v.build_id
  [ ("windows".toList,
      [ ("x64".toList, base_url ++ "/windows/nsis/x64".toList),
        ("arm64".toList, base_url ++ "/windows/nsis/arm64".toList) ]),
    ("mac".toList,
      [ ("universal".toList, base_url ++ "/mac/installer/universal".toList),
        ("arm64".toList, base_url ++ "/mac/installer/arm64".toList),
        ("x64".toList, base_url ++ "/mac/installer/x64".toList) ]),
    ("linux".toList,
      [ ("x64".toList, base_url ++ "/linux/appImage/x64".toList) ]) ]

/-- Flat view of the nested links dict: the (platform, architecture, URL)
triples in the dict's iteration order, as `links.items()` enumerates them. -/
def linkEntries (v : CursorVersion) : List (PyStr × PyStr × PyStr) :=
  (get_download_links v).flatMap (fun pa => pa.2.map (fun au => (pa.1, au.1, au.2)))

/-- The single error kind of the script: the `ValueError` raised when
unpacking `line.strip().split(',')` into two variables fails (the spec's
FormatError). -/
inductive PyErr where
  | FormatError
deriving DecidableEq, Repr

/-- The loop body of `parse_versions` over the list of lines: skip empty
lines, split each remaining line (after stripping it) on every comma, and
require exactly two parts; a failed unpacking aborts the whole parse. -/
def parseLines : List PyStr → Except PyErr (List CursorVersion)
  | [] => .ok []
  | line :: rest =>
    if line = [] then parseLines rest
    else
      match pySplit ',' (pyStrip line) with
      | [v, b] => (parseLines rest).map (fun vs => (⟨v, b⟩ : CursorVersion) :: vs)
      | _ => .error .FormatError

/-- Embedding of `parse_versions`: strip the whole text, split it into
lines on newlines, then run the parsing loop. -/
def parse_versions (data : PyStr) : Except PyErr (List CursorVersion) :=
  parseLines (pySplit '\n' (pyStrip data))

/-- Lines of the input as `parse_versions` sees them, after the initial
strip of the whole text. -/
def inputLines (data : PyStr) : List PyStr := pySplit '\n' (pyStrip data)

/-- The lines of the input that are not skipped by the empty-line check. -/
def nonblankLines (data : PyStr) : List PyStr :=
  (inputLines data).filter (fun l => !l.isEmpty)

/-- Record a well-formed line parses to (used to state order preservation). -/
def recordOfLine (l : PyStr) : CursorVersion :=
  match pySplit ',' (pyStrip l) with
  | [v, b] => ⟨v, b⟩
  | _ => ⟨[], []⟩

/-- Static markdown chunk opening the Windows x64 section (source lines 78-86). -/
def mdS1 : PyStr := "# 🖥️ Windows\n\n## x64\n<details>\n<summary style=\"font-size:1.2em\">📦 Windows x64 安装包</summary>\n\n| 版本 | 下载链接 |\n|------|----------|\n".toList

/-- Static markdown chunk between the Windows x64 and Windows ARM64 sections. -/
def mdS2 : PyStr := "\n</details>\n\n## ARM64 \n<details>\n<summary style=\"font-size:1.2em\">📱 Windows ARM64 安装包</summary>\n\n| 版本 | 下载链接 |\n|------|----------|\n".toList

/-- Static markdown chunk between the Windows ARM64 and macOS Universal sections. -/
def mdS3 : PyStr := "\n</details>\n\n# 🍎 macOS\n\n## Universal\n<details>\n<summary style=\"font-size:1.2em\">🎯 macOS Universal 安装包</summary>\n\n| 版本 | 下载链接 |\n|------|----------|\n".toList

/-- Static markdown chunk between the macOS Universal and macOS ARM64 sections. -/
def mdS4 : PyStr := "\n</details>\n\n## ARM64\n<details>\n<summary style=\"font-size:1.2em\">💪 macOS ARM64 安装包</summary>\n\n| 版本 | 下载链接 |\n|------|----------|\n".toList

/-- Static markdown chunk between the macOS ARM64 and macOS Intel sections. -/
def mdS5 : PyStr := "\n</details>\n\n## Intel\n<details>\n<summary style=\"font-size:1.2em\">💻 macOS Intel 安装包</summary>\n\n| 版本 | 下载链接 |\n|------|----------|\n".toList

/-- Static markdown chunk between the macOS Intel and Linux x64 sections. -/
def mdS6 : PyStr := "\n</details>\n\n# 🐧 Linux\n\n## x64\n<details>\n<summary style=\"font-size:1.2em\">🎮 Linux x64 AppImage</summary>\n\n| 版本 | 下载链接 |\n|------|----------|\n".toList

/-- Static markdown tail: closing tag and the CSS styling block appended at
the end (source lines 183-231; CSS braces written as character escapes). -/
def mdS7 : PyStr := "\n</details>\n\n<style>\ndetails \x7b\n    margin: 1em 0;\n    padding: 0.5em 1em;\n    background: #f8f9fa;\n    border-radius: 8px;\n    box-shadow: 0 2px 4px rgba(0,0,0,0.1);\n\x7d\n\nsummary \x7b\n    cursor: pointer;\n    font-weight: bold;\n    margin: -0.5em -1em;\n    padding: 0.5em 1em;\n\x7d\n\nsummary:hover \x7b\n    background: #f1f3f5;\n\x7d\n\ntable \x7b\n    width: 100%;\n    border-collapse: collapse;\n    margin-top: 1em;\n\x7d\n\nth, td \x7b\n    padding: 0.5em;\n    text-align: left;\n    border-bottom: 1px solid #dee2e6;\n\x7d\n\ntr:hover \x7b\n    background: #f1f3f5;\n\x7d\n\na \x7b\n    color: #0366d6;\n    text-decoration: none;\n\x7d\n\na:hover \x7b\n    text-decoration: underline;\n\x7d\n</style>\n".toList

/-- One markdown table row, the f-string
`| {version.version} | [下载]({links[platform][arch]}) |\n`.  The dict
subscripts are modelled by association-list lookup; the `none` branch is
Python's KeyError, unreachable for the keys the script uses. -/
def mdRow (v : CursorVersion) (platform arch : PyStr) : PyStr :=
  match (List.lookup platform (get_download_links v)).bind
      (fun archs => List.lookup arch archs) with
  | some url => "| ".toList ++ v.version ++ " | [下载](".toList ++ url ++ ") |\n".toList
  | none => []

/-- One `for version in versions` loop of `generate_markdown`, appending a
table row per record to the accumulated document. -/
def addRows (versions : List CursorVersion) (platform arch : PyStr) (md : PyStr) : PyStr :=
  versions.foldl (fun acc v => acc ++ mdRow v platform arch) md

/-- Embedding of `generate_markdown`: sequential accumulation of static
chunks and per-record rows, exactly as the source builds `md`. -/
def generate_markdown (versions : List CursorVersion) : PyStr :=
  let md := mdS1
  let md := addRows versions "windows".toList "x64".toList md
  let md := md ++ mdS2
  let md := addRows versions "windows".toList "arm64".toList md
  let md := md ++ mdS3
  let md := addRows versions "mac".toList "universal".toList md
  let md := md ++ mdS4
  let md := addRows versions "mac".toList "arm64".toList md
  let md := md ++ mdS5
  let md := addRows versions "mac".toList "x64".toList md
  let md := md ++ mdS6
  let md := addRows versions "linux".toList "x64".toList md
  md ++ mdS7

/-- One element of the JSON `versions` array: the per-record object built
in `main` with keys `version`, `build_id`, `downloads`. -/
structure VersionInfo where
  version : PyStr
  build_id : PyStr
  downloads : List (PyStr × List (PyStr × PyStr))
deriving DecidableEq, Repr

/-- The JSON-building loop of `main`: one `VersionInfo` appended per
record, in input order. -/
def build_json : List CursorVersion → List VersionInfo
  | [] => []
  | v :: rest => ⟨v.version, v.build_id, get_download_links v⟩ :: build_json rest

/-- The CSV header row written by `main`. -/
def csvHeader : List PyStr :=
  ["Version".toList, "Platform".toList, "Architecture".toList, "Download URL".toList]

/-- The CSV data rows for one record: the nested
`for platform, archs in links.items(): for arch, url in archs.items()`
loops of `main`, in dict iteration order. -/
def csvRowsFor (v : CursorVersion) : List (List PyStr) :=
  (get_download_links v).flatMap (fun pa => pa.2.map (fun au => [v.version, pa.1, au.1, au.2]))

/-- All CSV rows written by `main`: header, then the data rows of each
record in input order. -/
def csv_rows (versions : List CursorVersion) : List (List PyStr) :=
  csvHeader :: versions.flatMap csvRowsFor

/-- The spec's fixed suffix table (§4.2): the six (platform, architecture,
path-suffix) entries in their fixed order. -/
def downloadTable : List (PyStr × PyStr × PyStr) :=
  [ ("windows".toList, "x64".toList, "/windows/nsis/x64".toList),
    ("windows".toList, "arm64".toList, "/windows/nsis/arm64".toList),
    ("mac".toList, "universal".toList, "/mac/installer/universal".toList),
    ("mac".toList, "arm64".toList, "/mac/installer/arm64".toList),
    ("mac".toList, "x64".toList, "/mac/installer/x64".toList),
    ("linux".toList, "x64".toList, "/linux/appImage/x64".toList) ]

/-- Serialization of one record as a `version,build_id` line (used to state
the spec's round-trip property; the script itself has no serializer). -/
def lineOf (r : CursorVersion) : PyStr := r.version ++ ',' :: r.build_id

/-- Serialization of a record list, one line per record. -/
def serialize (rs : List CursorVersion) : PyStr := joinLines (rs.map lineOf)

/-! ## Lemmas about the split embedding -/

theorem pySplitF_no_sep {sep : Char} {s : PyStr} (h : ∀ c ∈ s, c ≠ sep) :
    pySplitF sep s = (s, []) := by
  induction s with
  | nil => rfl
  | cons c rest ih =>
    have hc : c ≠ sep := h c (List.mem_cons_self c rest)
    have : pySplitF sep rest = (rest, []) := ih (fun d hd => h d (List.mem_cons_of_mem c hd))
    simp [pySplitF, this, hc]

theorem pySplitF_append_sep {sep : Char} {v b : PyStr} (h : ∀ c ∈ v, c ≠ sep) :
    pySplitF sep (v ++ sep :: b) = (v, (pySplitF sep b).1 :: (pySplitF sep b).2) := by
  induction v with
  | nil => simp [pySplitF]
  | cons c rest ih =>
    have hc : c ≠ sep := h c (List.mem_cons_self c rest)
    have := ih (fun d hd => h d (List.mem_cons_of_mem c hd))
    simp [pySplitF, this, hc]

theorem pySplit_pair {sep : Char} {v b : PyStr} (hv : sep ∉ v) (hb : sep ∉ b) :
    pySplit sep (v ++ sep :: b) = [v, b] := by
  have h1 : pySplitF sep (v ++ sep :: b) = (v, (pySplitF sep b).1 :: (pySplitF sep b).2) :=
    pySplitF_append_sep (fun c hc => fun he => hv (he ▸ hc))
  have h2 : pySplitF sep b = (b, []) :=
    pySplitF_no_sep (fun c hc => fun he => hb (he ▸ hc))
  simp [pySplit, h1, h2]

theorem pySplit_join {ls : List PyStr} (hne : ls ≠ [])
    (h : ∀ l ∈ ls, '\n' ∉ l) : pySplit '\n' (joinLines ls) = ls := by
  induction ls with
  | nil => exact absurd rfl hne
  | cons l rest ih =>
    cases rest with
    | nil =>
      have h1 : pySplitF '\n' l = (l, []) :=
        pySplitF_no_sep (fun c hc => fun he =>
          h l (List.mem_cons_self l []) (he ▸ hc))
      simp [joinLines, pySplit, h1]
    | cons l₂ rest₂ =>
      have hjoin : joinLines (l :: l₂ :: rest₂) = l ++ '\n' :: joinLines (l₂ :: rest₂) := rfl
      have h1 : pySplitF '\n' (l ++ '\n' :: joinLines (l₂ :: rest₂)) =
          (l, (pySplitF '\n' (joinLines (l₂ :: rest₂))).1 ::
            (pySplitF '\n' (joinLines (l₂ :: rest₂))).2) :=
        pySplitF_append_sep (fun c hc => fun he =>
          h l (List.mem_cons_self l (l₂ :: rest₂)) (he ▸ hc))
      have ih2 : pySplit '\n' (joinLines (l₂ :: rest₂)) = l₂ :: rest₂ :=
        ih (by simp) (fun m hm => h m (List.mem_cons_of_mem l hm))
      have := congrArg List.tail ih2
      have hhead := congrArg (List.headD · []) ih2
      simp [pySplit] at ih2
      simp [hjoin, pySplit, h1, ih2.1, ih2.2]

/-! ## Lemmas about the strip embedding -/

theorem lstrip_length_le (s : PyStr) : (lstrip s).length ≤ s.length := by
  induction s with
  | nil => simp [lstrip]
  | cons c rest ih =>
    by_cases hc : isPySpace c
    · simpa [lstrip, List.dropWhile_cons, hc] using Nat.le_succ_of_le ih
    · simp [lstrip, List.dropWhile_cons, hc]

theorem lstrip_eq_self_of_length {s : PyStr} (h : (lstrip s).length = s.length) :
    lstrip s = s := by
  cases s with
  | nil => rfl
  | cons c rest =>
    by_cases hc : isPySpace c
    · exfalso
      have h1 : lstrip (c :: rest) = lstrip rest := by
        simp [lstrip, List.dropWhile_cons, hc]
      have h2 := lstrip_length_le rest
      rw [h1] at h
      simp at h
      omega
    · simp [lstrip, List.dropWhile_cons, hc]

theorem rstrip_length_le (s : PyStr) : (rstrip s).length ≤ s.length := by
  have := lstrip_length_le s.reverse
  simpa [rstrip] using this

theorem rstrip_eq_self_of_length {s : PyStr} (h : (rstrip s).length = s.length) :
    rstrip s = s := by
  have h1 : (lstrip s.reverse).length = s.reverse.length := by
    simpa [rstrip] using h
  have h2 := lstrip_eq_self_of_length h1
  simp [rstrip, h2]

theorem pyStrip_eq_self_parts {s : PyStr} (h : pyStrip s = s) :
    lstrip s = s ∧ rstrip s = s := by
  have hls := lstrip_length_le s
  have hrs := rstrip_length_le (lstrip s)
  have hlen : (pyStrip s).length = s.length := by rw [h]
  have hlen2 : (rstrip (lstrip s)).length = s.length := hlen
  have hl : (lstrip s).length = s.length := by omega
  have hleq : lstrip s = s := lstrip_eq_self_of_length hl
  refine ⟨hleq, ?_⟩
  have : rstrip s = s := by
    have := h
    rw [pyStrip, hleq] at this
    exact this
  exact this

theorem lstrip_cons_not_space {c : Char} {s : PyStr} (hc : isPySpace c = false) :
    lstrip (c :: s) = c :: s := by
  simp [lstrip, List.dropWhile_cons, hc]

theorem head_not_space_of_lstrip {c : Char} {s : PyStr} (h : lstrip (c :: s) = c :: s) :
    isPySpace c = false := by
  by_cases hc : isPySpace c
  · exfalso
    have h1 : lstrip (c :: s) = lstrip s := by
      simp [lstrip, List.dropWhile_cons, hc]
    have h2 := lstrip_length_le s
    have : (c :: s).length = (lstrip s).length := by rw [← h, h1]
    simp at this
    omega
  · simpa using hc

theorem lstrip_append_of_eq_self {a : PyStr} (b : PyStr) (h : lstrip a = a) (hne : a ≠ []) :
    lstrip (a ++ b) = a ++ b := by
  cases a with
  | nil => exact absurd rfl hne
  | cons c rest =>
    have hc := head_not_space_of_lstrip h
    simpa using lstrip_cons_not_space (s := rest ++ b) hc

theorem rstrip_append_of_eq_self (a : PyStr) {b : PyStr} (h : rstrip b = b) (hne : b ≠ []) :
    rstrip (a ++ b) = a ++ b := by
  have h1 : lstrip b.reverse = b.reverse := by
    have := congrArg List.reverse h
    simpa [rstrip] using this
  have h2 : b.reverse ≠ [] := by
    intro hb
    exact hne (by simpa using congrArg List.reverse hb)
  have h3 : lstrip (b.reverse ++ a.reverse) = b.reverse ++ a.reverse :=
    lstrip_append_of_eq_self a.reverse h1 h2
  simp [rstrip, List.reverse_append, h3]

theorem joinLines_ne_nil {l : PyStr} {rest : List PyStr} (h : l ≠ []) :
    joinLines (l :: rest) ≠ [] := by
  cases rest with
  | nil => simpa [joinLines] using h
  | cons l₂ rest₂ =>
    have : joinLines (l :: l₂ :: rest₂) = l ++ '\n' :: joinLines (l₂ :: rest₂) := rfl
    rw [this]
    simp

theorem rstrip_joinLines {ls : List PyStr} (hne : ls ≠ [])
    (h : ∀ l ∈ ls, l ≠ [] ∧ rstrip l = l) : rstrip (joinLines ls) = joinLines ls := by
  induction ls with
  | nil => exact absurd rfl hne
  | cons l rest ih =>
    cases rest with
    | nil => simpa [joinLines] using (h l (List.mem_cons_self l [])).2
    | cons l₂ rest₂ =>
      have hjoin : joinLines (l :: l₂ :: rest₂) = l ++ '\n' :: joinLines (l₂ :: rest₂) := rfl
      have ih2 : rstrip (joinLines (l₂ :: rest₂)) = joinLines (l₂ :: rest₂) :=
        ih (by simp) (fun m hm => h m (List.mem_cons_of_mem l hm))
      have hn2 : joinLines (l₂ :: rest₂) ≠ [] :=
        joinLines_ne_nil (h l₂ (by simp)).1
      have htail : rstrip (['\n'] ++ joinLines (l₂ :: rest₂)) =
          ['\n'] ++ joinLines (l₂ :: rest₂) :=
        rstrip_append_of_eq_self ['\n'] ih2 hn2
      have : rstrip (l ++ (['\n'] ++ joinLines (l₂ :: rest₂))) =
          l ++ (['\n'] ++ joinLines (l₂ :: rest₂)) :=
        rstrip_append_of_eq_self l htail (by simp)
      simpa [hjoin] using this

theorem pyStrip_joinLines {ls : List PyStr}
    (h : ∀ l ∈ ls, l ≠ [] ∧ pyStrip l = l) : pyStrip (joinLines ls) = joinLines ls := by
  cases ls with
  | nil => rfl
  | cons l rest =>
    have hl := h l (List.mem_cons_self l rest)
    have hparts := pyStrip_eq_self_parts hl.2
    have hlstrip : lstrip (joinLines (l :: rest)) = joinLines (l :: rest) := by
      cases rest with
      | nil => simpa [joinLines] using hparts.1
      | cons l₂ rest₂ =>
        have hjoin : joinLines (l :: l₂ :: rest₂) = l ++ '\n' :: joinLines (l₂ :: rest₂) := rfl
        rw [hjoin]
        exact lstrip_append_of_eq_self _ hparts.1 hl.1
    have hrstrip : rstrip (joinLines (l :: rest)) = joinLines (l :: rest) :=
      rstrip_joinLines (by simp)
        (fun m hm => ⟨(h m hm).1, (pyStrip_eq_self_parts (h m hm).2).2⟩)
    rw [pyStrip, hlstrip, hrstrip]

/-! ## Lemmas about the parsing loop -/

theorem parseLines_error_of_bad {ls : List PyStr}
    (h : ∃ l ∈ ls, l ≠ [] ∧ (pySplit ',' (pyStrip l)).length ≠ 2) :
    parseLines ls = .error .FormatError := by
  induction ls with
  | nil => simp at h
  | cons l rest ih =>
    obtain ⟨m, hm, hmne, hmlen⟩ := h
    rcases List.mem_cons.mp hm with rfl | hmem
    · rw [parseLines, if_neg hmne]
      rcases hp : pySplit ',' (pyStrip m) with _ | ⟨v, _ | ⟨b, _ | _⟩⟩ <;>
        first
          | rfl
          | (exfalso; apply hmlen; rw [hp]; rfl)
    · have herr : parseLines rest = .error .FormatError := ih ⟨m, hmem, hmne, hmlen⟩
      by_cases hl : l = []
      · rw [parseLines, if_pos hl]
        exact herr
      · rw [parseLines, if_neg hl]
        rcases hp : pySplit ',' (pyStrip l) with _ | ⟨v, _ | ⟨b, _ | _⟩⟩ <;>
          simp [herr, Except.map]

theorem parseLines_ok_of_wf {ls : List PyStr}
    (h : ∀ l ∈ ls, l ≠ [] → (pySplit ',' (pyStrip l)).length = 2) :
    parseLines ls = .ok ((ls.filter (fun l => !l.isEmpty)).map recordOfLine) := by
  induction ls with
  | nil => rfl
  | cons l rest ih =>
    have ihr := ih (fun m hm hmne => h m (List.mem_cons_of_mem l hm) hmne)
    by_cases hl : l = []
    · subst hl
      rw [parseLines, if_pos rfl]
      simpa [List.filter_cons] using ihr
    · rw [parseLines, if_neg hl]
      have hlen := h l (List.mem_cons_self l rest) hl
      rcases hp : pySplit ',' (pyStrip l) with _ | ⟨v, _ | ⟨b, _ | t⟩⟩ <;>
        rw [hp] at hlen <;> simp at hlen
      have hfil : (l :: rest).filter (fun m => !m.isEmpty) =
          l :: rest.filter (fun m => !m.isEmpty) := by
        simp [List.filter_cons, hl]
      rw [hfil]
      have hrec : recordOfLine l = ⟨v, b⟩ := by
        rw [recordOfLine, hp]
      simp [ihr, Except.map, hrec]

theorem parseLines_filter (ls : List PyStr) :
    parseLines ls = parseLines (ls.filter (fun l => !l.isEmpty)) := by
  induction ls with
  | nil => rfl
  | cons l rest ih =>
    by_cases hl : l = []
    · subst hl
      rw [parseLines, if_pos rfl]
      simpa [List.filter_cons] using ih
    · have hfil : (l :: rest).filter (fun m => !m.isEmpty) =
          l :: rest.filter (fun m => !m.isEmpty) := by
        simp [List.filter_cons, hl]
      rw [hfil, parseLines, if_neg hl, parseLines, if_neg hl, ih]

theorem parseLines_middle_blank (pre post : List PyStr) :
    parseLines (pre ++ [] :: post) = parseLines (pre ++ post) := by
  induction pre with
  | nil =>
    have : parseLines ([] :: post) = parseLines post := by
      rw [parseLines, if_pos rfl]
    simpa using this
  | cons l pre ih =>
    by_cases hl : l = []
    · simp only [List.cons_append]
      rw [parseLines, if_pos hl, parseLines, if_pos hl]
      exact ih
    · simp only [List.cons_append]
      rw [parseLines, if_neg hl, parseLines, if_neg hl, ih]

theorem parseLines_serialized {rs : List CursorVersion}
    (h : ∀ r ∈ rs, ',' ∉ r.version ∧ ',' ∉ r.build_id ∧ pyStrip (lineOf r) = lineOf r) :
    parseLines (rs.map lineOf) = .ok rs := by
  induction rs with
  | nil => rfl
  | cons r rest ih =>
    have hr := h r (List.mem_cons_self r rest)
    have hne : lineOf r ≠ [] := by
      cases hv : r.version <;> simp [lineOf, hv]
    rw [List.map_cons, parseLines, if_neg hne, hr.2.2]
    have hsplit : pySplit ',' (lineOf r) = [r.version, r.build_id] :=
      pySplit_pair hr.1 hr.2.1
    rw [lineOf] at hsplit
    rw [lineOf, hsplit, ih (fun m hm => h m (List.mem_cons_of_mem r hm))]
    rfl

/-! ## Lemmas about the renderers -/

theorem foldl_append_rows {α : Type} (f : α → PyStr) :
    ∀ (l : List α) (init : PyStr),
      l.foldl (fun acc x => acc ++ f x) init = init ++ (l.map f).flatten := by
  intro l
  induction l with
  | nil => intro init; simp
  | cons x rest ih =>
    intro init
    simp [List.foldl_cons, ih, List.append_assoc]

/-- A markdown row for one (platform, arch) pair, stated from the spec's
suffix table: the record's version paired with a link to its URL. -/
def rowSpec (v : CursorVersion) (sfx : PyStr) : PyStr :=
  "| ".toList ++ v.version ++ " | [下载](".toList ++ dlBase ++ v.build_id ++ sfx ++ ") |\n".toList

/-- A whole markdown section body: one row per record, in input order. -/
def sectionRows (versions : List CursorVersion) (sfx : PyStr) : PyStr :=
  (versions.map (fun v => rowSpec v sfx)).flatten

theorem mdRow_windows_x64 (v : CursorVersion) :
    mdRow v "windows".toList "x64".toList = rowSpec v "/windows/nsis/x64".toList := by
  have h : (List.lookup "windows".toList (get_download_links v)).bind
      (fun archs => List.lookup "x64".toList archs) =
      some ((dlBase ++ v.build_id) ++ "/windows/nsis/x64".toList) := rfl
  simp only [mdRow]
  rw [h]
  simp [rowSpec, List.append_assoc]

theorem mdRow_windows_arm64 (v : CursorVersion) :
    mdRow v "windows".toList "arm64".toList = rowSpec v "/windows/nsis/arm64".toList := by
  have h : (List.lookup "windows".toList (get_download_links v)).bind
      (fun archs => List.lookup "arm64".toList archs) =
      some ((dlBase ++ v.build_id) ++ "/windows/nsis/arm64".toList) := rfl
  simp only [mdRow]
  rw [h]
  simp [rowSpec, List.append_assoc]

theorem mdRow_mac_universal (v : CursorVersion) :
    mdRow v "mac".toList "universal".toList = rowSpec v "/mac/installer/universal".toList := by
  have h : (List.lookup "mac".toList (get_download_links v)).bind
      (fun archs => List.lookup "universal".toList archs) =
      some ((dlBase ++ v.build_id) ++ "/mac/installer/universal".toList) := rfl
  simp only [mdRow]
  rw [h]
  simp [rowSpec, List.append_assoc]

theorem mdRow_mac_arm64 (v : CursorVersion) :
    mdRow v "mac".toList "arm64".toList = rowSpec v "/mac/installer/arm64".toList := by
  have h : (List.lookup "mac".toList (get_download_links v)).bind
      (fun archs => List.lookup "arm64".toList archs) =
      some ((dlBase ++ v.build_id) ++ "/mac/installer/arm64".toList) := rfl
  simp only [mdRow]
  rw [h]
  simp [rowSpec, List.append_assoc]

theorem mdRow_mac_x64 (v : CursorVersion) :
    mdRow v "mac".toList "x64".toList = rowSpec v "/mac/installer/x64".toList := by
  have h : (List.lookup "mac".toList (get_download_links v)).bind
      (fun archs => List.lookup "x64".toList archs) =
      some ((dlBase ++ v.build_id) ++ "/mac/installer/x64".toList) := rfl
  simp only [mdRow]
  rw [h]
  simp [rowSpec, List.append_assoc]

theorem mdRow_linux_x64 (v : CursorVersion) :
    mdRow v "linux".toList "x64".toList = rowSpec v "/linux/appImage/x64".toList := by
  have h : (List.lookup "linux".toList (get_download_links v)).bind
      (fun archs => List.lookup "x64".toList archs) =
      some ((dlBase ++ v.build_id) ++ "/linux/appImage/x64".toList) := rfl
  simp only [mdRow]
  rw [h]
  simp [rowSpec, List.append_assoc]

theorem csvRowsFor_eq (v : CursorVersion) :
    csvRowsFor v =
      downloadTable.map (fun t => [v.version, t.1, t.2.1, dlBase ++ v.build_id ++ t.2.2]) := by
  simp [csvRowsFor, get_download_links, downloadTable, List.append_assoc]

theorem csvRowsFor_length (v : CursorVersion) : (csvRowsFor v).length = 6 := rfl

theorem build_json_length (versions : List CursorVersion) :
    (build_json versions).length = versions.length := by
  induction versions with
  | nil => rfl
  | cons v rest ih => simp [build_json, ih]

theorem build_json_getElem (versions : List CursorVersion) (i : Nat) (v : CursorVersion)
    (h : versions[i]? = some v) :
    (build_json versions)[i]? = some ⟨v.version, v.build_id, get_download_links v⟩ := by
  induction versions generalizing i with
  | nil => simp at h
  | cons w rest ih =>
    cases i with
    | zero =>
      simp at h
      subst h
      simp [build_json]
    | succ n =>
      simp only [List.getElem?_cons_succ] at h
      simpa [build_json] using ih n h

theorem lineOf_ne_nil (r : CursorVersion) : lineOf r ≠ [] := by
  cases hv : r.version <;> simp [lineOf, hv]

theorem lstrip_append (s t : PyStr) :
    lstrip (s ++ t) = if lstrip s = [] then lstrip t else lstrip s ++ t := by
  induction s with
  | nil => simp [lstrip]
  | cons c rest ih =>
    by_cases hc : isPySpace c
    · have h1 : lstrip (c :: rest) = lstrip rest := by
        simp [lstrip, List.dropWhile_cons, hc]
      have h2 : lstrip ((c :: rest) ++ t) = lstrip (rest ++ t) := by
        simp [lstrip, List.dropWhile_cons, hc]
      rw [h1, h2, ih]
    · have h1 : lstrip (c :: rest) = c :: rest := by
        simp [lstrip, List.dropWhile_cons, hc]
      have h2 : lstrip ((c :: rest) ++ t) = (c :: rest) ++ t := by
        have hstep : (c :: rest) ++ t = c :: (rest ++ t) := rfl
        rw [hstep]
        simp [lstrip, List.dropWhile_cons, hc]
      rw [h2, h1, if_neg (List.cons_ne_nil c rest)]

theorem rstrip_append_newline (x : PyStr) : rstrip (x ++ ['\n']) = rstrip x := by
  have h : lstrip ('\n' :: x.reverse) = lstrip x.reverse := rfl
  simp [rstrip, List.reverse_append, h]

theorem lstrip_eq_nil_of_all_space {l : PyStr} (h : ∀ c ∈ l, isPySpace c = true) :
    lstrip l = [] := by
  induction l with
  | nil => rfl
  | cons c rest ih =>
    have hc : isPySpace c = true := h c (List.mem_cons_self c rest)
    have h2 := ih (fun d hd => h d (List.mem_cons_of_mem c hd))
    have h1 : lstrip (c :: rest) = lstrip rest := by
      simp [lstrip, List.dropWhile_cons, hc]
    rw [h1, h2]

/-! ## The claims -/

/-- C1: for every `CursorVersion`, whatever its `version` and `build_id`
strings contain, `get_download_links` yields exactly the six fixed
(platform, architecture) entries of the suffix table, each URL equal to
`https://downloader.cursor.sh/builds/` followed by the build id and the
entry's fixed suffix; being a total Lean function, it never fails. -/
theorem claim_C1 (v : CursorVersion) :
    linkEntries v =
      downloadTable.map (fun t => (t.1, t.2.1, dlBase ++ v.build_id ++ t.2.2)) ∧
    (linkEntries v).length = 6 := by
  constructor
  · simp [linkEntries, get_download_links, downloadTable, List.append_assoc]
  · rfl

/-- C2 counterexample: the claim says a line is split at its first comma,
with all text after it (commas included) becoming `build_id`.  On the line
`a,b,c` the code instead fails: `split(',')` yields three parts and the
two-variable unpacking raises.  So no record `("a", "b,c")` is produced. -/
theorem claim_C2_counterexample :
    parse_versions "a,b,c".toList = .error .FormatError ∧
    parse_versions "a,b,c".toList ≠
      .ok [⟨"a".toList, "b,c".toList⟩] := by
  have h : parse_versions "a,b,c".toList = .error .FormatError := rfl
  exact ⟨h, by rw [h]; exact fun hc => Except.noConfusion hc⟩

/-- C2 (amended): each non-blank line is stripped and split on every
comma, and must yield exactly two fields: `version` the text before the
comma and `build_id` the text after it, neither containing a comma; no
further validation of the fields is performed. -/
theorem claim_C2 (line : PyStr) (rest : List PyStr) (v b : PyStr)
    (hne : line ≠ []) (hdecomp : pyStrip line = v ++ ',' :: b)
    (hv : ',' ∉ v) (hb : ',' ∉ b) :
    parseLines (line :: rest) =
      (parseLines rest).map (fun vs => (⟨v, b⟩ : CursorVersion) :: vs) := by
  rw [parseLines, if_neg hne, hdecomp, pySplit_pair hv hb]

/-- C2 witness: the line ` 1.2,abc` parses to the record `("1.2", "abc")`. -/
theorem claim_C2_witness :
    parseLines [" 1.2,abc".toList] =
      (parseLines []).map (fun vs => (⟨"1.2".toList, "abc".toList⟩ : CursorVersion) :: vs) :=
  claim_C2 " 1.2,abc".toList [] "1.2".toList "abc".toList
    (by decide) (by decide) (by decide) (by decide)

/-- C3: any input whose line list (after the initial strip of the whole
text) contains a non-blank line that does not split into exactly two
comma-separated fields makes `parse_versions` fail with FormatError; no
record list is produced at all. -/
theorem claim_C3 (data : PyStr)
    (h : ∃ l ∈ inputLines data, l ≠ [] ∧ (pySplit ',' (pyStrip l)).length ≠ 2) :
    parse_versions data = .error .FormatError :=
  parseLines_error_of_bad h

/-- C3 witness: an input whose second line has no comma aborts the parse. -/
theorem claim_C3_witness :
    parse_versions "0.45.11,250207y6nbaw5qc\nbadline".toList = .error .FormatError :=
  claim_C3 "0.45.11,250207y6nbaw5qc\nbadline".toList
    ⟨"badline".toList, by decide, by decide, by decide⟩

/-- C4: for well-formed input (every non-blank line splits into exactly two
comma-separated fields), `parse_versions` succeeds with one record per
non-blank line, in input line order. -/
theorem claim_C4 (data : PyStr)
    (hwf : ∀ l ∈ inputLines data, l ≠ [] → (pySplit ',' (pyStrip l)).length = 2) :
    parse_versions data = .ok ((nonblankLines data).map recordOfLine) ∧
    ((nonblankLines data).map recordOfLine).length = (nonblankLines data).length :=
  ⟨parseLines_ok_of_wf hwf, by simp⟩

/-- C4 witness: a two-line input with an interior empty line parses to its
two records in order. -/
theorem claim_C4_witness :
    parse_versions "0.45.11,250207y6nbaw5qc\n\n0.45.10,250205buadkzpea".toList =
      .ok ((nonblankLines "0.45.11,250207y6nbaw5qc\n\n0.45.10,250205buadkzpea".toList).map
        recordOfLine) ∧
    ((nonblankLines "0.45.11,250207y6nbaw5qc\n\n0.45.10,250205buadkzpea".toList).map
      recordOfLine).length =
      (nonblankLines "0.45.11,250207y6nbaw5qc\n\n0.45.10,250205buadkzpea".toList).length :=
  claim_C4 "0.45.11,250207y6nbaw5qc\n\n0.45.10,250205buadkzpea".toList (by decide)

/-- C5 counterexample: the round-trip does not hold for every record list.
Serializing the single record `("a", "b,c")` gives the line `a,b,c`, which
re-parses to a FormatError, not to the original record. -/
theorem claim_C5_counterexample :
    parse_versions (serialize [⟨"a".toList, "b,c".toList⟩]) = .error .FormatError ∧
    parse_versions (serialize [⟨"a".toList, "b,c".toList⟩]) ≠
      .ok [⟨"a".toList, "b,c".toList⟩] := by
  have h : parse_versions (serialize [⟨"a".toList, "b,c".toList⟩]) =
      .error .FormatError := rfl
  exact ⟨h, by rw [h]; exact fun hc => Except.noConfusion hc⟩

/-- C5 (amended): the round-trip holds for every record list whose fields
contain no comma and no newline and whose serialized line carries no
leading or trailing whitespace (otherwise splitting or stripping alters
the fields): serializing N such records and re-parsing yields exactly the
original N records, in the original order. -/
theorem claim_C5 (rs : List CursorVersion)
    (h : ∀ r ∈ rs, ',' ∉ r.version ∧ ',' ∉ r.build_id ∧
      '\n' ∉ r.version ∧ '\n' ∉ r.build_id ∧ pyStrip (lineOf r) = lineOf r) :
    parse_versions (serialize rs) = .ok rs := by
  cases rs with
  | nil => rfl
  | cons r rest =>
    have hstrip : pyStrip (joinLines ((r :: rest).map lineOf)) =
        joinLines ((r :: rest).map lineOf) := by
      apply pyStrip_joinLines
      intro l hl
      obtain ⟨m, hm, rfl⟩ := List.mem_map.mp hl
      exact ⟨lineOf_ne_nil m, (h m hm).2.2.2.2⟩
    have hnl : ∀ l ∈ (r :: rest).map lineOf, '\n' ∉ l := by
      intro l hl
      obtain ⟨m, hm, rfl⟩ := List.mem_map.mp hl
      have hm2 := h m hm
      simp only [lineOf, List.mem_append, List.mem_cons]
      rintro (hc | hc | hc)
      · exact hm2.2.2.1 hc
      · exact absurd hc (by decide)
      · exact hm2.2.2.2.1 hc
    have hsplit : pySplit '\n' (joinLines ((r :: rest).map lineOf)) =
        (r :: rest).map lineOf :=
      pySplit_join (by simp) hnl
    have hp : parseLines ((r :: rest).map lineOf) = .ok (r :: rest) :=
      parseLines_serialized (fun m hm => ⟨(h m hm).1, (h m hm).2.1, (h m hm).2.2.2.2⟩)
    show parseLines (pySplit '\n' (pyStrip (joinLines ((r :: rest).map lineOf)))) = _
    rw [hstrip, hsplit, hp]

/-- C5 witness: a concrete two-record list round-trips exactly. -/
theorem claim_C5_witness :
    parse_versions (serialize
      [⟨"0.45.11".toList, "250207y6nbaw5qc".toList⟩,
       ⟨"0.45.10".toList, "250205buadkzpea".toList⟩]) =
      .ok [⟨"0.45.11".toList, "250207y6nbaw5qc".toList⟩,
           ⟨"0.45.10".toList, "250205buadkzpea".toList⟩] :=
  claim_C5 _ (by decide)

/-- C6: the CSV output has exactly `1 + 6 * N` rows: the fixed header row,
then for each record, in input order, the six data rows in the fixed order
of the suffix table. -/
theorem claim_C6 (versions : List CursorVersion) :
    (csv_rows versions).length = 1 + 6 * versions.length ∧
    csv_rows versions =
      ["Version".toList, "Platform".toList, "Architecture".toList, "Download URL".toList] ::
        versions.flatMap (fun v =>
          downloadTable.map (fun t => [v.version, t.1, t.2.1, dlBase ++ v.build_id ++ t.2.2])) := by
  have hfun : csvRowsFor = (fun v => downloadTable.map
      (fun t => [v.version, t.1, t.2.1, dlBase ++ v.build_id ++ t.2.2])) :=
    funext csvRowsFor_eq
  have hrows : csv_rows versions =
      ["Version".toList, "Platform".toList, "Architecture".toList, "Download URL".toList] ::
        versions.flatMap (fun v =>
          downloadTable.map (fun t => [v.version, t.1, t.2.1, dlBase ++ v.build_id ++ t.2.2])) := by
    rw [csv_rows, csvHeader, hfun]
  have hlen : ∀ vs : List CursorVersion, (vs.flatMap csvRowsFor).length = 6 * vs.length := by
    intro vs
    induction vs with
    | nil => rfl
    | cons v rest ih =>
      simp only [List.flatMap_cons, List.length_append, ih, csvRowsFor_length,
        List.length_cons]
      omega
  refine ⟨?_, hrows⟩
  have : (csv_rows versions).length = 1 + (versions.flatMap csvRowsFor).length := by
    simp [csv_rows]
    omega
  rw [this, hlen]

/-- C7: the JSON `versions` array has exactly one element per parsed
record, in input order, and the element at each index carries that
record's `version`, `build_id` and full nested downloads mapping. -/
theorem claim_C7 (versions : List CursorVersion) (i : Nat) (v : CursorVersion)
    (h : versions[i]? = some v) :
    (build_json versions).length = versions.length ∧
    (build_json versions)[i]? = some ⟨v.version, v.build_id, get_download_links v⟩ :=
  ⟨build_json_length versions, build_json_getElem versions i v h⟩

/-- C7 witness: for a concrete two-record list, the array has length two
and its second element is the second record's object. -/
theorem claim_C7_witness :
    (build_json [⟨"1".toList, "x".toList⟩, ⟨"2".toList, "y".toList⟩]).length =
      [(⟨"1".toList, "x".toList⟩ : CursorVersion), ⟨"2".toList, "y".toList⟩].length ∧
    (build_json [⟨"1".toList, "x".toList⟩, ⟨"2".toList, "y".toList⟩])[1]? =
      some ⟨"2".toList, "y".toList, get_download_links ⟨"2".toList, "y".toList⟩⟩ :=
  claim_C7 [⟨"1".toList, "x".toList⟩, ⟨"2".toList, "y".toList⟩] 1
    ⟨"2".toList, "y".toList⟩ (by decide)

/-- C8: the markdown document is the six fixed sections in the fixed order
windows/x64, windows/arm64, mac/universal, mac/arm64, mac/x64, linux/x64,
each section holding one row per record in input order — the record's
version linked to its URL for that section's platform and architecture —
interleaved with static chunks (`mdS1` … `mdS7`) that are constants,
independent of the records. -/
theorem claim_C8 (versions : List CursorVersion) :
    generate_markdown versions =
      mdS1 ++ sectionRows versions "/windows/nsis/x64".toList ++
      mdS2 ++ sectionRows versions "/windows/nsis/arm64".toList ++
      mdS3 ++ sectionRows versions "/mac/installer/universal".toList ++
      mdS4 ++ sectionRows versions "/mac/installer/arm64".toList ++
      mdS5 ++ sectionRows versions "/mac/installer/x64".toList ++
      mdS6 ++ sectionRows versions "/linux/appImage/x64".toList ++ mdS7 := by
  simp only [generate_markdown, addRows, foldl_append_rows, sectionRows,
    mdRow_windows_x64, mdRow_windows_arm64, mdRow_mac_universal,
    mdRow_mac_arm64, mdRow_mac_x64, mdRow_linux_x64, List.append_assoc]

/-- C9: empty lines produce no record and no error: the parse equals the
parse of the non-blank lines alone, an interior empty line can be removed
without changing the result, and a leading or trailing newline in the raw
text is ignored. -/
theorem claim_C9 (data : PyStr) (pre post : List PyStr) :
    parse_versions data = parseLines (nonblankLines data) ∧
    parseLines (pre ++ [] :: post) = parseLines (pre ++ post) ∧
    parse_versions ('\n' :: data) = parse_versions data ∧
    parse_versions (data ++ ['\n']) = parse_versions data := by
  refine ⟨parseLines_filter (inputLines data), parseLines_middle_blank pre post, rfl, ?_⟩
  by_cases hls : lstrip data = []
  · have h1 : lstrip (data ++ ['\n']) = [] := by
      rw [lstrip_append, if_pos hls]
      rfl
    show parseLines (pySplit '\n' (rstrip (lstrip (data ++ ['\n'])))) = _
    rw [h1]
    show _ = parseLines (pySplit '\n' (rstrip (lstrip data)))
    rw [hls]
  · have h1 : lstrip (data ++ ['\n']) = lstrip data ++ ['\n'] := by
      rw [lstrip_append, if_neg hls]
    show parseLines (pySplit '\n' (rstrip (lstrip (data ++ ['\n'])))) = _
    rw [h1, rstrip_append_newline]
    rfl

/-- C10: an interior line consisting only of whitespace (for example a
single space) is not treated as blank: the emptiness check runs before the
line is stripped, so the line reaches the comma split, which then yields
one field and aborts the whole parse with FormatError. -/
theorem claim_C10 (data : PyStr) (l : PyStr) (hmem : l ∈ inputLines data)
    (hne : l ≠ []) (hws : ∀ c ∈ l, isPySpace c = true) :
    parse_versions data = .error .FormatError := by
  apply parseLines_error_of_bad
  refine ⟨l, hmem, hne, ?_⟩
  have h1 : lstrip l = [] := lstrip_eq_nil_of_all_space hws
  show (pySplit ',' (rstrip (lstrip l))).length ≠ 2
  rw [h1]
  decide

/-- C10 witness: the input `a,b\n \nc,d`, whose middle line is a single
space, fails to parse. -/
theorem claim_C10_witness :
    parse_versions "a,b\n \nc,d".toList = .error .FormatError :=
  claim_C10 "a,b\n \nc,d".toList [' '] (by decide) (by decide) (by decide)

end CursorLinks
